import Mathlib

/-!
# Verification of the ClayRS recommendation-orchestration core

Shallow embedding of the recommendation orchestration engine of ClayRS
(`clayrs/recsys/recsys.py`, `clayrs/evaluation/eval_model.py`,
`orange_cb_recsys/evaluation/eval_pipeline_modules/metric_evaluator.py`)
together with proofs about its per-user fit/predict/rank behaviour,
its Fit Registry failure semantics, and the evaluation setup checks.

Conventions of the embedding:
* Python dictionaries (the Fit Registry `_user_fit_dic`) are association
  lists with in-place update and append-at-end on a new key, which is
  exactly the insertion-order behaviour of a `dict`.
* A Python `set(xs)` is modelled as `xs.dedup` (a deterministic choice of
  one representative order; Python leaves set iteration order unspecified).
* `raise` is modelled with `Except`; a caught exception does not appear in
  the result type.
* The concrete content-based algorithm is out of scope and abstracted by
  `CBAlgSpec`: a deterministic skip condition (`UserSkipAlgFit`), a fitted
  model built from the user's processed interactions, and predict/rank
  output functions.  Likewise `GBAlgSpec` abstracts a graph-based algorithm.
* Python values that may be passed in a caller-supplied `user_id_list` are
  modelled by `PyVal` (ints and strings) with `PyVal.str` playing the role
  of Python's `str(...)`.
-/

/-- One user–item interaction / result record, mirroring
`Interaction` of `clayrs.content_analyzer.ratings_manager.ratings`:
`(user_id, item_id, score)`.  Scores are modelled as integers. -/
structure Interaction where
  user : String
  item : String
  score : Int
deriving DecidableEq, Repr

/-- The `Ratings` container of ClayRS: an ordered collection of
interaction records. -/
structure Ratings where
  records : List Interaction
deriving DecidableEq, Repr

/-- `Ratings.user_id_column`: the user-id column of the ratings frame. -/
def Ratings.user_id_column (r : Ratings) : List String :=
  r.records.map Interaction.user

/-- `Ratings.item_id_column`: the item-id column of the ratings frame. -/
def Ratings.item_id_column (r : Ratings) : List String :=
  r.records.map Interaction.item

/-- `Ratings.get_user_interactions`: the rows of a single user. -/
def Ratings.get_user_interactions (r : Ratings) (u : String) : List Interaction :=
  r.records.filter (fun i => i.user == u)

/-- Errors raised by the embedded code: `NotFittedAlg`
(`clayrs.recsys.content_based_algorithm.exceptions`) and Python's
`ValueError`. -/
inductive PyErr where
  | notFittedAlg
  | valueError
deriving DecidableEq, Repr

/-- A Python dictionary with `Option μ` values, as an insertion-ordered
association list (the Fit Registry `_user_fit_dic`).  A key mapped to
`none` models a `None` value ("fit attempted and skipped"), an absent key
models "never attempted". -/
abbrev FitDict (μ : Type) := List (String × Option μ)

/-- `d[k] = v` on a Python dict: update in place if the key exists,
append at the end otherwise. -/
def dictInsert {μ : Type} (k : String) (v : Option μ) : FitDict μ → FitDict μ
  | [] => [(k, v)]
  | (k', v') :: rest => if k' = k then (k, v) :: rest else (k', v') :: dictInsert k v rest

/-- Raw lookup: `some v` when the key is present with value `v`
(so `some none` is the sentinel-`None` entry), `none` when absent. -/
def dictGet {μ : Type} (k : String) : FitDict μ → Option (Option μ)
  | [] => none
  | (k', v') :: rest => if k' = k then some v' else dictGet k rest

/-- Python's `d.get(k)`: returns `None` both for an absent key and for a
key stored with value `None`. -/
def pyGet {μ : Type} (d : FitDict μ) (k : String) : Option μ :=
  (dictGet k d).join

/-- The keys of the dictionary, in insertion order. -/
def dictKeys {μ : Type} (d : FitDict μ) : List String :=
  d.map Prod.fst

-- Basic dictionary lemmas.

theorem dictGet_dictInsert {μ : Type} (k k' : String) (v : Option μ) (d : FitDict μ) :
    dictGet k' (dictInsert k v d) = if k' = k then some v else dictGet k' d := by
  induction d with
  | nil =>
    by_cases h : k = k'
    · subst h; simp [dictInsert, dictGet]
    · simp [dictInsert, dictGet, h, Ne.symm h]
  | cons p rest ih =>
    obtain ⟨k₀, v₀⟩ := p
    by_cases h0 : k₀ = k
    · subst h0
      by_cases h : k₀ = k'
      · subst h; simp [dictInsert, dictGet]
      · simp [dictInsert, dictGet, h, Ne.symm h]
    · by_cases h : k₀ = k'
      · subst h
        simp [dictInsert, dictGet, h0, Ne.symm h0]
      · simp [dictInsert, dictGet, h0, h, ih]

theorem dictKeys_dictInsert {μ : Type} (k : String) (v : Option μ) (d : FitDict μ) :
    dictKeys (dictInsert k v d) =
      if k ∈ dictKeys d then dictKeys d else dictKeys d ++ [k] := by
  induction d with
  | nil => simp [dictInsert, dictKeys]
  | cons p rest ih =>
    obtain ⟨k₀, v₀⟩ := p
    by_cases h0 : k₀ = k
    · subst h0
      simp [dictInsert, dictKeys]
    · have h0' : k ≠ k₀ := Ne.symm h0
      simp only [dictInsert, if_neg h0, dictKeys, List.map_cons]
      simp only [dictKeys] at ih
      rw [ih]
      by_cases hmem : k ∈ List.map Prod.fst rest
      · simp [hmem, h0']
      · simp [hmem, h0']

/-- The `EvalModel` class of `clayrs/evaluation/eval_model.py`,
generic in the element types of its three stored lists. -/
structure EvalModel (π τ μm : Type) where
  pred_list : List π
  truth_list : List τ
  metric_list : List μm
deriving DecidableEq, Repr

/-- `EvalModel.__init__`: raises `ValueError` when both lists are empty,
then when their lengths differ; otherwise stores the three lists. -/
def EvalModel.make {π τ μm : Type} (pred_list : List π) (truth_list : List τ)
    (metric_list : List μm) : Except PyErr (EvalModel π τ μm) :=
  if pred_list.length = 0 ∧ truth_list.length = 0 then
    Except.error PyErr.valueError
  else if pred_list.length ≠ truth_list.length then
    Except.error PyErr.valueError
  else
    Except.ok ⟨pred_list, truth_list, metric_list⟩

/-- **C8.** Constructing an `EvalModel` raises `ValueError` exactly when the
prediction list and the ground-truth list have different lengths or are both
empty; for equal-length non-empty lists the constructor succeeds and stores
both lists unmodified. -/
theorem evalModel_valueError_iff {π τ μm : Type} (p : List π) (t : List τ) (m : List μm) :
    ((EvalModel.make p t m).isOk = false ↔ (p.length ≠ t.length ∨ (p = [] ∧ t = []))) ∧
    (p.length = t.length → p ≠ [] →
      EvalModel.make p t m = Except.ok ⟨p, t, m⟩) := by
  by_cases hboth : p.length = 0 ∧ t.length = 0
  · have hp := List.length_eq_zero.mp hboth.1
    have ht := List.length_eq_zero.mp hboth.2
    subst hp; subst ht
    simp [EvalModel.make, Except.isOk, Except.toBool]
  · by_cases hne : p.length = t.length
    · have ht0 : t.length ≠ 0 := fun hc => hboth ⟨hne.trans hc, hc⟩
      have hmake : EvalModel.make p t m = Except.ok ⟨p, t, m⟩ := by
        simp [EvalModel.make, hne, ht0]
      refine ⟨?_, fun _ _ => hmake⟩
      rw [hmake]
      constructor
      · intro h; simp [Except.isOk, Except.toBool] at h
      · rintro (h | h)
        · exact absurd hne h
        · exact absurd ⟨by simp [h.1], by simp [h.2]⟩ hboth
    · have hmake : EvalModel.make p t m = Except.error PyErr.valueError := by
        simp [EvalModel.make, hboth, hne]
      refine ⟨?_, fun hlen _ => absurd hlen hne⟩
      rw [hmake]
      simp [Except.isOk, Except.toBool, hne]

/-- Witness for C8 at a concrete input: the constructor succeeds on
equal-length non-empty lists and stores them unmodified. -/
theorem evalModel_valueError_iff_witness :
    ([1, 2] : List Nat).length = ([true, false] : List Bool).length ∧
      EvalModel.make [1, 2] [true, false] ([] : List Unit) =
        Except.ok ⟨[1, 2], [true, false], []⟩ :=
  ⟨by decide, (evalModel_valueError_iff [1, 2] [true, false] []).2 (by decide) (by decide)⟩

/-- A Python value usable as a user identifier in a caller-supplied
`user_id_list` (the code accepts arbitrary objects and applies `str`).
Ints and strings cover the cases exercised here. -/
inductive PyVal where
  | pint (n : Nat)
  | pstr (s : String)
deriving DecidableEq, Repr

/-- Python's `str(...)` on a `PyVal`. -/
def PyVal.str : PyVal → String
  | .pint n => Nat.repr n
  | .pstr s => s

/-- The `Methodology` policy object
(`clayrs.recsys.methodology`): `filter_single` yields the candidate items
of one user, `filter_all` the batched mapping used by the graph-based path.
Both are pure functions of their inputs. -/
structure Methodology where
  filter_single : String → Ratings → Ratings → List String
  filter_all : Ratings → Ratings → List (String × List String)

/-- Abstraction of a deterministic `ContentBasedAlgorithm`
(`orange_cb_recsys/recsys/content_based_algorithm/content_based_algorithm.py`):
* `skips ut` holds when `process_rated`/`fit` on the interactions `ut`
  raises `UserSkipAlgFit`;
* `fitResult ut` is the fitted model obtained from `process_rated` + `fit`
  on a fresh copy whose state comes only from `ut`;
* `predictFn`/`rankFn` are the fitted model's `predict`/`rank`
  (arguments: model, user interactions, [top-n cutoff], filter list). -/
structure CBAlgSpec (μ : Type) where
  skips : List Interaction → Bool
  fitResult : List Interaction → μ
  predictFn : μ → List Interaction → Option (List String) → List Interaction
  rankFn : μ → List Interaction → Option Nat → Option (List String) → List Interaction

/-- The `ContentBasedRS` class state: the algorithm, the train set and the
Fit Registry `_user_fit_dic`.  The content directories and the loaded-items
interface carry no information relevant to the claims and are omitted. -/
structure ContentBasedRS (μ : Type) where
  alg : CBAlgSpec μ
  train_set : Ratings
  user_fit_dic : FitDict μ

/-- `ContentBasedRS.__init__`: the Fit Registry starts empty. -/
def mkContentBasedRS {μ : Type} (alg : CBAlgSpec μ) (train_set : Ratings) :
    ContentBasedRS μ :=
  ⟨alg, train_set, []⟩

/-- The registry value written by `ContentBasedRS.fit` for one user:
`None` when the fit raised `UserSkipAlgFit`, the fitted copy otherwise. -/
def fitValue {μ : Type} (spec : CBAlgSpec μ) (train : Ratings) (u : String) : Option μ :=
  let ut := train.get_user_interactions u
  if spec.skips ut then none else some (spec.fitResult ut)

/-- The `for user_id in set(train.user_id_column)` loop of
`ContentBasedRS.fit`: per user, deep-copy the algorithm, `process_rated`,
`fit`, store the fitted copy; on `UserSkipAlgFit` store `None`. -/
def fitLoop {μ : Type} (spec : CBAlgSpec μ) (train : Ratings) :
    List String → FitDict μ → FitDict μ
  | [], d => d
  | u :: us, d => fitLoop spec train us (dictInsert u (fitValue spec train u) d)

/-- `ContentBasedRS.fit`: iterate over the distinct users of the train set
and populate the Fit Registry; caught `UserSkipAlgFit` never escapes. -/
def ContentBasedRS.fit {μ : Type} (rs : ContentBasedRS μ) : ContentBasedRS μ :=
  { rs with
    user_fit_dic := fitLoop rs.alg rs.train_set rs.train_set.user_id_column.dedup rs.user_fit_dic }

theorem dictGet_fitLoop {μ : Type} (spec : CBAlgSpec μ) (train : Ratings)
    (us : List String) (d : FitDict μ) (u : String) :
    dictGet u (fitLoop spec train us d) =
      if u ∈ us then some (fitValue spec train u) else dictGet u d := by
  induction us generalizing d with
  | nil => simp [fitLoop]
  | cons w ws ih =>
    by_cases hmem : u ∈ ws
    · simp [fitLoop, ih, hmem]
    · by_cases hw : u = w
      · subst hw
        simp [fitLoop, ih, hmem, dictGet_dictInsert]
      · simp [fitLoop, ih, hmem, hw, dictGet_dictInsert]

theorem dictKeys_fitLoop_of_mem {μ : Type} (spec : CBAlgSpec μ) (train : Ratings)
    (us : List String) (d : FitDict μ) (h : ∀ u ∈ us, u ∈ dictKeys d) :
    dictKeys (fitLoop spec train us d) = dictKeys d := by
  induction us generalizing d with
  | nil => simp [fitLoop]
  | cons w ws ih =>
    have hw : w ∈ dictKeys d := h w (List.mem_cons_self w ws)
    have hkeys : dictKeys (dictInsert w (fitValue spec train w) d) = dictKeys d := by
      rw [dictKeys_dictInsert]; simp [hw]
    rw [fitLoop, ih _ (fun u hu => by rw [hkeys]; exact h u (List.mem_cons_of_mem w hu)),
      hkeys]

theorem dictKeys_fitLoop_of_not_mem {μ : Type} (spec : CBAlgSpec μ) (train : Ratings)
    (us : List String) (hnd : us.Nodup) (d : FitDict μ)
    (h : ∀ u ∈ us, u ∉ dictKeys d) :
    dictKeys (fitLoop spec train us d) = dictKeys d ++ us := by
  induction us generalizing d with
  | nil => simp [fitLoop]
  | cons w ws ih =>
    have hw : w ∉ dictKeys d := h w (List.mem_cons_self w ws)
    have hkeys : dictKeys (dictInsert w (fitValue spec train w) d) = dictKeys d ++ [w] := by
      rw [dictKeys_dictInsert]; simp [hw]
    have hrest : ∀ u ∈ ws, u ∉ dictKeys d ++ [w] := by
      intro u hu
      simp only [List.mem_append, List.mem_singleton]
      rintro (hc | hc)
      · exact h u (List.mem_cons_of_mem w hu) hc
      · exact (List.nodup_cons.mp hnd).1 (hc ▸ hu)
    rw [fitLoop, ih (List.nodup_cons.mp hnd).2 _ (fun u hu => hkeys ▸ hrest u hu), hkeys]
    simp

theorem fit_registry_spec {μ : Type} (spec : CBAlgSpec μ) (train : Ratings) :
    dictKeys ((mkContentBasedRS spec train).fit).user_fit_dic =
        train.user_id_column.dedup ∧
    ∀ u ∈ train.user_id_column.dedup,
      dictGet u ((mkContentBasedRS spec train).fit).user_fit_dic =
        some (if spec.skips (train.get_user_interactions u) then none
              else some (spec.fitResult (train.get_user_interactions u))) := by
  constructor
  · have := dictKeys_fitLoop_of_not_mem spec train train.user_id_column.dedup
      train.user_id_column.nodup_dedup ([] : FitDict μ) (by simp [dictKeys])
    simpa [ContentBasedRS.fit, mkContentBasedRS, dictKeys] using this
  · intro u hu
    have := dictGet_fitLoop spec train train.user_id_column.dedup ([] : FitDict μ) u
    simpa [ContentBasedRS.fit, mkContentBasedRS, hu, fitValue] using this

/-- **C2.** On a freshly constructed `ContentBasedRS`, `fit` completes
(`UserSkipAlgFit` is caught inside the loop) and leaves the Fit Registry
with exactly one entry per distinct user of the train set: the sentinel
`None` exactly for the users whose fit raised `UserSkipAlgFit`, the fitted
copy for all others. -/
theorem contentBasedRS_fit_registry {μ : Type} (spec : CBAlgSpec μ) (train : Ratings) :
    dictKeys ((mkContentBasedRS spec train).fit).user_fit_dic =
        train.user_id_column.dedup ∧
    ∀ u ∈ train.user_id_column.dedup,
      dictGet u ((mkContentBasedRS spec train).fit).user_fit_dic =
        some (if spec.skips (train.get_user_interactions u) then none
              else some (spec.fitResult (train.get_user_interactions u))) :=
  fit_registry_spec spec train

/-- Witness for C2 on a concrete two-user train set where user `"b"` is
skipped by the algorithm (it has a single negatively-scored interaction)
and user `"a"` is fitted. -/
theorem contentBasedRS_fit_registry_witness :
    ("b" ∈ (Ratings.mk [⟨"a", "x", 5⟩, ⟨"b", "y", -1⟩]).user_id_column.dedup) ∧
      dictGet "b"
        ((mkContentBasedRS
            ⟨fun ut => ut.all (fun i => i.score < 0), fun ut => ut.length,
              fun _ _ _ => [], fun _ _ _ _ => []⟩
            (Ratings.mk [⟨"a", "x", 5⟩, ⟨"b", "y", -1⟩])).fit).user_fit_dic =
        some none :=
  ⟨by decide,
    by
      have h := (contentBasedRS_fit_registry
        ⟨fun ut => ut.all (fun i => i.score < 0), fun ut => ut.length,
          fun _ _ _ => [], fun _ _ _ _ => []⟩
        (Ratings.mk [⟨"a", "x", 5⟩, ⟨"b", "y", -1⟩])).2 "b" (by decide)
      simpa using h⟩

/-- **C7.** Calling `fit` twice on the same unchanged train set (`skips` is
a function, hence a deterministic skip condition) yields a Fit Registry
with identical key membership, and an identical set of users mapped to the
sentinel `None`, after the second call as after the first. -/
theorem contentBasedRS_fit_fit_membership {μ : Type} (spec : CBAlgSpec μ) (train : Ratings) :
    dictKeys ((mkContentBasedRS spec train).fit.fit).user_fit_dic =
        dictKeys ((mkContentBasedRS spec train).fit).user_fit_dic ∧
    ∀ u : String,
      (dictGet u ((mkContentBasedRS spec train).fit.fit).user_fit_dic = some none ↔
        dictGet u ((mkContentBasedRS spec train).fit).user_fit_dic = some none) := by
  have hkeys1 : dictKeys ((mkContentBasedRS spec train).fit).user_fit_dic =
      train.user_id_column.dedup := (fit_registry_spec spec train).1
  have htrain : ((mkContentBasedRS spec train).fit).train_set = train := rfl
  constructor
  · show dictKeys (fitLoop spec train train.user_id_column.dedup
        ((mkContentBasedRS spec train).fit).user_fit_dic) = _
    exact dictKeys_fitLoop_of_mem spec train _ _ (fun u hu => hkeys1 ▸ hu)
  · intro u
    show dictGet u (fitLoop spec train train.user_id_column.dedup
        ((mkContentBasedRS spec train).fit).user_fit_dic) = some none ↔ _
    rw [dictGet_fitLoop]
    by_cases hu : u ∈ train.user_id_column.dedup
    · have h2 := (fit_registry_spec spec train).2 u hu
      rw [if_pos hu, h2]
      simp [fitValue]
    · rw [if_neg hu]

/-- The evaluated-user set of the content-based `predict`/`rank` loops:
`set(test_set.user_id_column)`, or `set(user_id_list)` when a caller list
is supplied; each element then passes through `user_id = str(user_id)` at
the top of the loop body. -/
def evalUsers (test : Ratings) : Option (List PyVal) → List String
  | none => test.user_id_column.dedup
  | some l => l.dedup.map PyVal.str

/-- One iteration of the `ContentBasedRS.rank` loop: fetch the user's
train interactions, compute the methodology filter list (a Python set),
look the user up in the Fit Registry with `.get`; a `None` result (absent
key or sentinel entry) contributes no records and only logs a warning. -/
def rankUser {μ : Type} (spec : CBAlgSpec μ) (dic : FitDict μ) (train test : Ratings)
    (n_recs : Option Nat) (methodology : Option Methodology) (u : String) :
    List Interaction :=
  let user_train := train.get_user_interactions u
  let filter_list := methodology.map (fun m => (m.filter_single u train test).dedup)
  match pyGet dic u with
  | some model => spec.rankFn model user_train n_recs filter_list
  | none => []

/-- The whole `ContentBasedRS.rank` loop: concatenate (`rank.extend`) the
per-user partial results in iteration order. -/
def rankCore {μ : Type} (spec : CBAlgSpec μ) (dic : FitDict μ) (train test : Ratings)
    (n_recs : Option Nat) (methodology : Option Methodology) (users : List String) :
    List Interaction :=
  (users.map (rankUser spec dic train test n_recs methodology)).flatten

/-- One iteration of the `ContentBasedRS.predict` loop. -/
def predictUser {μ : Type} (spec : CBAlgSpec μ) (dic : FitDict μ) (train test : Ratings)
    (methodology : Option Methodology) (u : String) : List Interaction :=
  let user_train := train.get_user_interactions u
  let filter_list := methodology.map (fun m => (m.filter_single u train test).dedup)
  match pyGet dic u with
  | some model => spec.predictFn model user_train filter_list
  | none => []

/-- The whole `ContentBasedRS.predict` loop. -/
def predictCore {μ : Type} (spec : CBAlgSpec μ) (dic : FitDict μ) (train test : Ratings)
    (methodology : Option Methodology) (users : List String) : List Interaction :=
  (users.map (predictUser spec dic train test methodology)).flatten

/-- `ContentBasedRS.rank`: raise `NotFittedAlg` when the Fit Registry is
empty, otherwise run the per-user loop and build the `Rank` container. -/
def ContentBasedRS.rank {μ : Type} (rs : ContentBasedRS μ) (test : Ratings)
    (n_recs : Option Nat) (user_id_list : Option (List PyVal))
    (methodology : Option Methodology) : Except PyErr (List Interaction) :=
  if rs.user_fit_dic.length = 0 then
    Except.error PyErr.notFittedAlg
  else
    Except.ok (rankCore rs.alg rs.user_fit_dic rs.train_set test n_recs methodology
      (evalUsers test user_id_list))

/-- `ContentBasedRS.predict`: same guard, then the prediction loop. -/
def ContentBasedRS.predict {μ : Type} (rs : ContentBasedRS μ) (test : Ratings)
    (user_id_list : Option (List PyVal)) (methodology : Option Methodology) :
    Except PyErr (List Interaction) :=
  if rs.user_fit_dic.length = 0 then
    Except.error PyErr.notFittedAlg
  else
    Except.ok (predictCore rs.alg rs.user_fit_dic rs.train_set test methodology
      (evalUsers test user_id_list))

/-- **C3.** `ContentBasedRS.predict` and `ContentBasedRS.rank` raise
`NotFittedAlg` exactly when the Fit Registry is empty at call time (the
guard runs before any record is produced, as the `Except` result shows);
with a non-empty registry they return a result container instead. -/
theorem contentBasedRS_notFittedAlg_iff {μ : Type} (rs : ContentBasedRS μ)
    (test : Ratings) (n_recs : Option Nat) (user_id_list : Option (List PyVal))
    (methodology : Option Methodology) :
    (rs.rank test n_recs user_id_list methodology = Except.error PyErr.notFittedAlg ↔
      rs.user_fit_dic = []) ∧
    (rs.predict test user_id_list methodology = Except.error PyErr.notFittedAlg ↔
      rs.user_fit_dic = []) ∧
    (rs.user_fit_dic ≠ [] →
      (rs.rank test n_recs user_id_list methodology).isOk = true ∧
      (rs.predict test user_id_list methodology).isOk = true) := by
  by_cases h : rs.user_fit_dic = []
  · simp [ContentBasedRS.rank, ContentBasedRS.predict, h]
  · have hlen : rs.user_fit_dic.length ≠ 0 := by
      simpa [List.length_eq_zero] using h
    simp [ContentBasedRS.rank, ContentBasedRS.predict, hlen, h, Except.isOk, Except.toBool]

/-- **C4.** During the `predict`/`rank` loops, a user whose Fit Registry
entry is absent or is the sentinel `None` (both make `dict.get` return
`None`, so they are treated identically) contributes exactly zero result
records, no error is raised, and the records of the other users are
unchanged. -/
theorem skipped_user_contributes_nothing {μ : Type} (spec : CBAlgSpec μ)
    (dic : FitDict μ) (train test : Ratings) (n_recs : Option Nat)
    (methodology : Option Methodology) (u : String) (us₁ us₂ : List String)
    (h : pyGet dic u = none) :
    rankCore spec dic train test n_recs methodology (us₁ ++ u :: us₂) =
      rankCore spec dic train test n_recs methodology (us₁ ++ us₂) ∧
    predictCore spec dic train test methodology (us₁ ++ u :: us₂) =
      predictCore spec dic train test methodology (us₁ ++ us₂) := by
  constructor
  · simp [rankCore, rankUser, h]
  · simp [predictCore, predictUser, h]

/-- Witness for C4: in a registry holding a sentinel-`None` entry for
`"s"` and no entry at all for `"t"`, both users contribute zero records to
a rank over `["a", "s", "t"]`. -/
theorem skipped_user_contributes_nothing_witness :
    (pyGet ([("a", some 0), ("s", none)] : FitDict Nat) "s" = none ∧
      rankCore ⟨fun _ => false, fun ut => ut.length, fun _ _ _ => [],
          fun m _ _ _ => [⟨"a", "i", Int.ofNat m⟩]⟩
        [("a", some 0), ("s", none)] (Ratings.mk []) (Ratings.mk []) none none
        (["a"] ++ "s" :: []) =
      rankCore ⟨fun _ => false, fun ut => ut.length, fun _ _ _ => [],
          fun m _ _ _ => [⟨"a", "i", Int.ofNat m⟩]⟩
        [("a", some 0), ("s", none)] (Ratings.mk []) (Ratings.mk []) none none
        (["a"] ++ [])) ∧
    (pyGet ([("a", some 0), ("s", none)] : FitDict Nat) "t" = none ∧
      predictCore ⟨fun _ => false, fun ut => ut.length, fun _ _ _ => [],
          fun m _ _ _ => [⟨"a", "i", Int.ofNat m⟩]⟩
        [("a", some 0), ("s", none)] (Ratings.mk []) (Ratings.mk []) none
        (["a"] ++ "t" :: []) =
      predictCore ⟨fun _ => false, fun ut => ut.length, fun _ _ _ => [],
          fun m _ _ _ => [⟨"a", "i", Int.ofNat m⟩]⟩
        [("a", some 0), ("s", none)] (Ratings.mk []) (Ratings.mk []) none
        (["a"] ++ [])) :=
  ⟨⟨by decide,
      (skipped_user_contributes_nothing _ _ _ _ none none "s" ["a"] [] (by decide)).1⟩,
    ⟨by decide,
      (skipped_user_contributes_nothing _ _ _ _ none none "t" ["a"] [] (by decide)).2⟩⟩

/-- Instance-identity trace of the `ContentBasedRS.fit` loop: instance `0`
is the shared base algorithm `self.algorithm`; each `deepcopy` yields a
fresh instance numbered by a counter.  `fit` deep-copies for every user,
so user `u` at position `i` has `process_rated`/`fit` invoked on fresh
instance `c + i`. -/
def fitLoopCalls : List String → Nat → List (String × Nat)
  | [], _ => []
  | u :: us, c => (u, c) :: fitLoopCalls us (c + 1)

/-- The (user, algorithm-instance) pairs on which `ContentBasedRS.fit`
invokes `process_rated` and `fit`; fresh copies are numbered from 1. -/
def fitCalls (users : List String) : List (String × Nat) :=
  fitLoopCalls users 1

/-- Instance-identity trace of the fused `fit_predict`/`fit_rank` loop:
`if save_fit: user_alg = deepcopy(self.algorithm); ...; alg = user_alg`
(a fresh instance) `else: alg = self.algorithm` (the shared base
instance `0`); `process_rated` and `fit` are then invoked on `alg`. -/
def fusedLoopCalls (save_fit : Bool) : List String → Nat → List (String × Nat)
  | [], _ => []
  | u :: us, c =>
    if save_fit then (u, c) :: fusedLoopCalls save_fit us (c + 1)
    else (u, 0) :: fusedLoopCalls save_fit us c

/-- The (user, algorithm-instance) pairs on which
`ContentBasedRS.fit_predict` invokes `process_rated` and `fit`. -/
def fit_predictCalls (save_fit : Bool) (users : List String) : List (String × Nat) :=
  fusedLoopCalls save_fit users 1

/-- The (user, algorithm-instance) pairs on which
`ContentBasedRS.fit_rank` invokes `process_rated` and `fit`. -/
def fit_rankCalls (save_fit : Bool) (users : List String) : List (String × Nat) :=
  fusedLoopCalls save_fit users 1

/-- Per-user state isolation as claimed: every `process_rated`/`fit` pair
runs on a fresh deep copy of the base algorithm (never the shared base
instance `0`) and no two users share an instance. -/
def freshCopyPerUser (calls : List (String × Nat)) : Prop :=
  (∀ p ∈ calls, p.2 ≠ 0) ∧ (calls.map Prod.snd).Nodup

theorem fitLoopCalls_snd (users : List String) (c : Nat) :
    (fitLoopCalls users c).map Prod.snd = List.range' c users.length := by
  induction users generalizing c with
  | nil => simp [fitLoopCalls]
  | cons u us ih => simp [fitLoopCalls, ih, List.range']

theorem fusedLoopCalls_true_eq_fitLoopCalls (users : List String) (c : Nat) :
    fusedLoopCalls true users c = fitLoopCalls users c := by
  induction users generalizing c with
  | nil => simp [fusedLoopCalls, fitLoopCalls]
  | cons u us ih => simp [fusedLoopCalls, fitLoopCalls, ih]

theorem fusedLoopCalls_false_snd (users : List String) (c : Nat) :
    (fusedLoopCalls false users c).map Prod.snd = List.replicate users.length 0 := by
  induction users generalizing c with
  | nil => simp [fusedLoopCalls]
  | cons u us ih => simp [fusedLoopCalls, ih, List.replicate]

theorem freshCopyPerUser_fitLoopCalls (users : List String) :
    freshCopyPerUser (fitLoopCalls users 1) := by
  constructor
  · intro p hp
    have : p.2 ∈ (fitLoopCalls users 1).map Prod.snd := List.mem_map_of_mem Prod.snd hp
    rw [fitLoopCalls_snd] at this
    have := List.mem_range'.mp this
    omega
  · rw [fitLoopCalls_snd]
    exact List.nodup_range' _ _

/-- **C1 (amended; counterexample `fit_predict_shares_base_instance`).**
`ContentBasedRS.fit` always runs `process_rated`/`fit` on a fresh deep
copy per user, and so do `fit_predict`/`fit_rank` **when `save_fit` is
true**; but when `save_fit` is false the fused loops run every user's
`process_rated`/`fit` on the one shared base instance (`alg =
self.algorithm`), so mutable fitted state is shared between users' fit
paths — the claimed isolation does not hold regardless of `save_fit`. -/
theorem per_user_fresh_copy (users : List String) :
    freshCopyPerUser (fitCalls users) ∧
    freshCopyPerUser (fit_predictCalls true users) ∧
    freshCopyPerUser (fit_rankCalls true users) ∧
    (fit_predictCalls false users).map Prod.snd = List.replicate users.length 0 ∧
    (fit_rankCalls false users).map Prod.snd = List.replicate users.length 0 := by
  refine ⟨freshCopyPerUser_fitLoopCalls users, ?_, ?_, ?_, ?_⟩ <;>
    simp [fit_predictCalls, fit_rankCalls, fusedLoopCalls_true_eq_fitLoopCalls,
      fusedLoopCalls_false_snd, freshCopyPerUser_fitLoopCalls users]

/-- **C1 counterexample.** With `save_fit = False` and two users, the
`fit_predict` loop invokes `process_rated`/`fit` for both users on the
same shared base instance `0`: the per-user fresh-copy property claimed
"regardless of the save_fit flag" is false. -/
theorem fit_predict_shares_base_instance :
    ¬ freshCopyPerUser (fit_predictCalls false ["u1", "u2"]) := by
  unfold freshCopyPerUser fit_predictCalls fusedLoopCalls
  decide

/-- The fused loop of `ContentBasedRS.fit_predict`: per user,
process+fit (on a fresh copy persisted into the registry when `save_fit`,
on the shared base instance otherwise); on `UserSkipAlgFit` store `None`
when `save_fit` and `continue`; otherwise compute the methodology filter
and extend the result with the user's predictions. -/
def fit_predictLoop {μ : Type} (spec : CBAlgSpec μ) (train test : Ratings)
    (methodology : Option Methodology) (save_fit : Bool) :
    List String → FitDict μ → FitDict μ × List Interaction
  | [], dic => (dic, [])
  | u :: us, dic =>
    let ut := train.get_user_interactions u
    if spec.skips ut then
      let dic' := if save_fit then dictInsert u none dic else dic
      fit_predictLoop spec train test methodology save_fit us dic'
    else
      let dic' := if save_fit then dictInsert u (some (spec.fitResult ut)) dic else dic
      let filter_list := methodology.map (fun m => (m.filter_single u train test).dedup)
      let user_pred := spec.predictFn (spec.fitResult ut) ut filter_list
      let rest := fit_predictLoop spec train test methodology save_fit us dic'
      (rest.1, user_pred ++ rest.2)

/-- The fused loop of `ContentBasedRS.fit_rank` (same shape with the
top-n cutoff passed to the per-user `rank`). -/
def fit_rankLoop {μ : Type} (spec : CBAlgSpec μ) (train test : Ratings)
    (n_recs : Option Nat) (methodology : Option Methodology) (save_fit : Bool) :
    List String → FitDict μ → FitDict μ × List Interaction
  | [], dic => (dic, [])
  | u :: us, dic =>
    let ut := train.get_user_interactions u
    if spec.skips ut then
      let dic' := if save_fit then dictInsert u none dic else dic
      fit_rankLoop spec train test n_recs methodology save_fit us dic'
    else
      let dic' := if save_fit then dictInsert u (some (spec.fitResult ut)) dic else dic
      let filter_list := methodology.map (fun m => (m.filter_single u train test).dedup)
      let user_rank := spec.rankFn (spec.fitResult ut) ut n_recs filter_list
      let rest := fit_rankLoop spec train test n_recs methodology save_fit us dic'
      (rest.1, user_rank ++ rest.2)

/-- `ContentBasedRS.fit_predict`: fused fit+predict over the evaluated
users; never raises (`UserSkipAlgFit` only skips the user). -/
def ContentBasedRS.fit_predict {μ : Type} (rs : ContentBasedRS μ) (test : Ratings)
    (user_id_list : Option (List PyVal)) (methodology : Option Methodology)
    (save_fit : Bool) : ContentBasedRS μ × List Interaction :=
  let r := fit_predictLoop rs.alg rs.train_set test methodology save_fit
    (evalUsers test user_id_list) rs.user_fit_dic
  ({ rs with user_fit_dic := r.1 }, r.2)

/-- `ContentBasedRS.fit_rank`: fused fit+rank over the evaluated users. -/
def ContentBasedRS.fit_rank {μ : Type} (rs : ContentBasedRS μ) (test : Ratings)
    (n_recs : Option Nat) (user_id_list : Option (List PyVal))
    (methodology : Option Methodology) (save_fit : Bool) :
    ContentBasedRS μ × List Interaction :=
  let r := fit_rankLoop rs.alg rs.train_set test n_recs methodology save_fit
    (evalUsers test user_id_list) rs.user_fit_dic
  ({ rs with user_fit_dic := r.1 }, r.2)

theorem dedup_map_of_injOn {α β : Type} [DecidableEq α] [DecidableEq β] (f : α → β) :
    ∀ l : List α, (∀ a ∈ l, ∀ b ∈ l, f a = f b → a = b) →
      (l.map f).dedup = l.dedup.map f
  | [], _ => by simp
  | a :: t, h => by
    have ht : ∀ x ∈ t, ∀ y ∈ t, f x = f y → x = y := fun x hx y hy =>
      h x (List.mem_cons_of_mem a hx) y (List.mem_cons_of_mem a hy)
    by_cases hmem : a ∈ t
    · have hfm : f a ∈ t.map f := List.mem_map_of_mem f hmem
      rw [List.map_cons, List.dedup_cons_of_mem hfm, List.dedup_cons_of_mem hmem,
        dedup_map_of_injOn f t ht]
    · have hfm : f a ∉ t.map f := by
        intro hc
        obtain ⟨b, hb, hfb⟩ := List.mem_map.mp hc
        have hba : b = a :=
          h b (List.mem_cons_of_mem a hb) a (List.mem_cons_self a t) hfb
        exact hmem (hba ▸ hb)
      rw [List.map_cons, List.dedup_cons_of_not_mem hfm, List.dedup_cons_of_not_mem hmem,
        List.map_cons, dedup_map_of_injOn f t ht]

theorem evalUsers_str_image (test : Ratings) (l : List PyVal)
    (hinj : ∀ a ∈ l, ∀ b ∈ l, PyVal.str a = PyVal.str b → a = b) :
    evalUsers test (some (l.map (fun a => PyVal.pstr a.str))) =
      evalUsers test (some l) := by
  have hg : ∀ a ∈ l, ∀ b ∈ l,
      (fun a => PyVal.pstr (PyVal.str a)) a = (fun a => PyVal.pstr (PyVal.str a)) b →
        a = b := by
    intro a ha b hb hab
    exact hinj a ha b hb (PyVal.pstr.injEq _ _ ▸ congrArg PyVal.str hab)
  show ((l.map (fun a => PyVal.pstr a.str)).dedup).map PyVal.str = l.dedup.map PyVal.str
  rw [dedup_map_of_injOn _ l hg, List.map_map]
  rfl

/-- **C9 (amended; counterexample `str_conversion_colliding_ids`).**
`rank`, `predict`, `fit_predict` and `fit_rank` convert each caller-supplied
identifier via `str(...)` before train-interaction lookup, methodology
filtering and Fit Registry access, so — **provided no two distinct
identifiers in the list share one string form** — calling them with
non-string identifiers gives the same outcome as calling them with the
corresponding string identifiers.  (Without that proviso the claim fails:
the `set(...)` dedup runs before the `str` conversion.) -/
theorem str_conversion_of_injective {μ : Type} (rs : ContentBasedRS μ)
    (test : Ratings) (n_recs : Option Nat) (methodology : Option Methodology)
    (save_fit : Bool) (l : List PyVal)
    (hinj : ∀ a ∈ l, ∀ b ∈ l, PyVal.str a = PyVal.str b → a = b) :
    rs.rank test n_recs (some l) methodology =
      rs.rank test n_recs (some (l.map (fun a => PyVal.pstr a.str))) methodology ∧
    rs.predict test (some l) methodology =
      rs.predict test (some (l.map (fun a => PyVal.pstr a.str))) methodology ∧
    rs.fit_predict test (some l) methodology save_fit =
      rs.fit_predict test (some (l.map (fun a => PyVal.pstr a.str))) methodology save_fit ∧
    rs.fit_rank test n_recs (some l) methodology save_fit =
      rs.fit_rank test n_recs (some (l.map (fun a => PyVal.pstr a.str))) methodology save_fit := by
  have husers := evalUsers_str_image test l hinj
  refine ⟨?_, ?_, ?_, ?_⟩ <;>
    simp [ContentBasedRS.rank, ContentBasedRS.predict, ContentBasedRS.fit_predict,
      ContentBasedRS.fit_rank, husers]

/-- Witness for C9 with the single integer identifier `7`: `rank` and the
other operations agree with the call on the string `"7"`. -/
theorem str_conversion_of_injective_witness :
    (∀ a ∈ [PyVal.pint 7], ∀ b ∈ [PyVal.pint 7], PyVal.str a = PyVal.str b → a = b) ∧
    (mkContentBasedRS
        ⟨fun _ => false, fun ut => ut.length, fun m _ _ => [⟨"7", "i", Int.ofNat m⟩],
          fun m _ _ _ => [⟨"7", "i", Int.ofNat m⟩]⟩
        (Ratings.mk [⟨"7", "x", 1⟩])).rank (Ratings.mk []) none
        (some [PyVal.pint 7]) none =
      (mkContentBasedRS
        ⟨fun _ => false, fun ut => ut.length, fun m _ _ => [⟨"7", "i", Int.ofNat m⟩],
          fun m _ _ _ => [⟨"7", "i", Int.ofNat m⟩]⟩
        (Ratings.mk [⟨"7", "x", 1⟩])).rank (Ratings.mk []) none
        (some ([PyVal.pint 7].map (fun a => PyVal.pstr a.str))) none :=
  ⟨by decide,
    (str_conversion_of_injective _ (Ratings.mk []) none none false [PyVal.pint 7]
      (by decide)).1⟩

/-- A concrete two-record ranking function obeying the declared contract:
descending scores, at most `recs_number` items, records keyed by the user
whose interactions were passed in. -/
def demoRankFn : List Interaction → Option Nat → List Interaction
  | [], _ => []
  | i :: _, n =>
    [Interaction.mk i.user "a" 5, Interaction.mk i.user "b" 3].take
      (match n with | some k => k | none => 2)

/-- A concrete content-based algorithm built on `demoRankFn`. -/
def demoSpec : CBAlgSpec Unit :=
  ⟨fun _ => false, fun _ => (),
    fun _ ut _ => demoRankFn ut none,
    fun _ ut n _ => demoRankFn ut n⟩

/-- A one-interaction train set for user `"1"`. -/
def demoTrain : Ratings := ⟨[⟨"1", "x", 4⟩]⟩

/-- A `ContentBasedRS` whose Fit Registry holds a fitted model for `"1"`. -/
def demoRS : ContentBasedRS Unit := ⟨demoSpec, demoTrain, [("1", some ())]⟩

/-- An empty test set (the evaluated users are supplied explicitly). -/
def demoTest : Ratings := ⟨[]⟩

/-- **C9 counterexample.** Python's `set` keeps the int `1` and the string
`"1"` as two distinct identifiers and the loop applies `str` only
afterwards, so `rank` with `user_id_list = [1, "1"]` processes user `"1"`
twice and duplicates its records, while the corresponding string list
`["1", "1"]` dedups to one element: the two calls return different result
containers. -/
theorem str_conversion_colliding_ids :
    demoRS.rank demoTest none (some [PyVal.pint 1, PyVal.pstr "1"]) none =
      Except.ok [⟨"1", "a", 5⟩, ⟨"1", "b", 3⟩, ⟨"1", "a", 5⟩, ⟨"1", "b", 3⟩] ∧
    demoRS.rank demoTest none
        (some ([PyVal.pint 1, PyVal.pstr "1"].map (fun a => PyVal.pstr a.str))) none =
      Except.ok [⟨"1", "a", 5⟩, ⟨"1", "b", 3⟩] ∧
    ([⟨"1", "a", 5⟩, ⟨"1", "b", 3⟩, ⟨"1", "a", 5⟩, ⟨"1", "b", 3⟩] : List Interaction) ≠
      [⟨"1", "a", 5⟩, ⟨"1", "b", 3⟩] := by
  refine ⟨?_, ?_, by decide⟩ <;> rfl

theorem rankUser_eq {μ : Type} (spec : CBAlgSpec μ) (dic : FitDict μ)
    (train test : Ratings) (n_recs : Option Nat) (methodology : Option Methodology)
    (u : String) :
    rankUser spec dic train test n_recs methodology u =
      match pyGet dic u with
      | some model => spec.rankFn model (train.get_user_interactions u) n_recs
          (methodology.map (fun m => (m.filter_single u train test).dedup))
      | none => [] := rfl

theorem filter_flatten_blocks (g : String → List Interaction) (u : String) :
    ∀ users : List String, users.Nodup →
      (∀ u' ∈ users, ∀ r ∈ g u', r.user = u') →
      ((users.map g).flatten.filter (fun r => r.user == u)) =
        if u ∈ users then g u else []
  | [], _, _ => by simp
  | w :: ws, hnd, hg => by
    have hrest := filter_flatten_blocks g u ws (List.nodup_cons.mp hnd).2
      (fun u' hu' => hg u' (List.mem_cons_of_mem w hu'))
    simp only [List.map_cons, List.flatten_cons, List.filter_append, hrest]
    by_cases hw : w = u
    · subst hw
      have h1 : (g w).filter (fun r => r.user == w) = g w :=
        List.filter_eq_self.mpr (fun r hr => by
          have := hg w (List.mem_cons_self w ws) r hr
          simp [this])
      have hnm : w ∉ ws := (List.nodup_cons.mp hnd).1
      simp [h1, hnm]
    · have h1 : (g w).filter (fun r => r.user == u) = [] :=
        List.filter_eq_nil_iff.mpr (fun r hr => by
          have := hg w (List.mem_cons_self w ws) r hr
          simp [this, hw])
      by_cases hu : u ∈ ws <;> simp [h1, hw, hu, Ne.symm hw]

/-- **C6 (amended; counterexample `rank_ordering_colliding_ids`).**
Under the algorithm's declared per-call contract (descending scores, at
most `n` records, records keyed by the queried user) **and provided the
evaluated users are pairwise distinct after string conversion** (always
true when `user_id_list` is omitted, and whenever its entries have
distinct string forms), every user's sub-sequence of a `Rank` returned by
`ContentBasedRS.rank` has non-increasing scores and, when `n_recs` is
supplied, length at most `n_recs`.  (Without the proviso a user can be
evaluated twice and its sub-sequence concatenates two blocks.) -/
theorem contentBasedRS_rank_ordering {μ : Type} (rs : ContentBasedRS μ) (test : Ratings)
    (n_recs : Option Nat) (user_id_list : Option (List PyVal))
    (methodology : Option Methodology) (res : List Interaction)
    (hdesc : ∀ mo ut n f, ((rs.alg.rankFn mo ut n f).map Interaction.score).Sorted (· ≥ ·))
    (hlen : ∀ mo ut k f, (rs.alg.rankFn mo ut (some k) f).length ≤ k)
    (huser : ∀ mo u n f,
      ∀ r ∈ rs.alg.rankFn mo (rs.train_set.get_user_interactions u) n f, r.user = u)
    (hnodup : (evalUsers test user_id_list).Nodup)
    (hres : rs.rank test n_recs user_id_list methodology = Except.ok res) :
    ∀ u : String,
      ((res.filter (fun r => r.user == u)).map Interaction.score).Sorted (· ≥ ·) ∧
      (∀ k, n_recs = some k → (res.filter (fun r => r.user == u)).length ≤ k) := by
  have hres' : res = rankCore rs.alg rs.user_fit_dic rs.train_set test n_recs methodology
      (evalUsers test user_id_list) := by
    by_cases h0 : rs.user_fit_dic.length = 0
    · simp [ContentBasedRS.rank, h0] at hres
    · simp [ContentBasedRS.rank, h0] at hres
      exact hres.symm
  have hg : ∀ u' ∈ evalUsers test user_id_list,
      ∀ r ∈ rankUser rs.alg rs.user_fit_dic rs.train_set test n_recs methodology u',
        r.user = u' := by
    intro u' _ r hr
    rw [rankUser_eq] at hr
    cases hdic : pyGet rs.user_fit_dic u' with
    | none => rw [hdic] at hr; simp at hr
    | some mo => rw [hdic] at hr; exact huser mo u' n_recs _ r hr
  intro u
  have hfil := filter_flatten_blocks
    (rankUser rs.alg rs.user_fit_dic rs.train_set test n_recs methodology) u
    (evalUsers test user_id_list) hnodup hg
  rw [hres']
  simp only [rankCore]
  rw [hfil]
  by_cases hu : u ∈ evalUsers test user_id_list
  · rw [if_pos hu]
    cases hdic : pyGet rs.user_fit_dic u with
    | none => simp [rankUser_eq, hdic]
    | some mo =>
      simp only [rankUser_eq, hdic]
      refine ⟨hdesc mo _ n_recs _, ?_⟩
      intro k hk
      subst hk
      exact hlen mo _ k _
  · rw [if_neg hu]
    simp

/-- Witness for C6 on an algorithm whose `rank` returns no records: the
contract hypotheses hold trivially, the evaluated users are distinct, and
the (empty) sub-sequence of user `"1"` is sorted and within every cutoff. -/
theorem contentBasedRS_rank_ordering_witness :
    (evalUsers demoTest (some [PyVal.pstr "1"])).Nodup ∧
    (((List.filter (fun r => r.user == "1") ([] : List Interaction)).map
        Interaction.score).Sorted (· ≥ ·) ∧
      (∀ k, (none : Option Nat) = some k →
        (List.filter (fun r => r.user == "1") ([] : List Interaction)).length ≤ k)) :=
  ⟨by decide,
    contentBasedRS_rank_ordering
      (ContentBasedRS.mk ⟨fun _ => false, fun _ => (), fun _ _ _ => [], fun _ _ _ _ => []⟩
        demoTrain [("1", some ())]) demoTest none (some [PyVal.pstr "1"]) none []
      (fun _ _ _ _ => by simp [List.sorted_nil])
      (fun _ _ _ _ => by simp)
      (fun _ _ _ _ r hr => by simp at hr)
      (by decide) rfl "1"⟩

theorem demoRankFn_sorted (ut : List Interaction) (n : Option Nat) :
    ((demoRankFn ut n).map Interaction.score).Sorted (· ≥ ·) := by
  cases ut with
  | nil => simp [demoRankFn]
  | cons i rest =>
    simp only [demoRankFn]
    rw [List.map_take]
    have hs : (List.map Interaction.score
        [Interaction.mk i.user "a" 5, Interaction.mk i.user "b" 3]).Sorted (· ≥ ·) := by
      simp only [List.map_cons, List.map_nil]
      decide
    exact List.Pairwise.sublist (List.take_sublist ..) hs

theorem demoRankFn_length (ut : List Interaction) (k : Nat) :
    (demoRankFn ut (some k)).length ≤ k := by
  cases ut with
  | nil => simp [demoRankFn]
  | cons i rest => simp [demoRankFn]

theorem demoRankFn_user (tr : Ratings) (u : String) (n : Option Nat) :
    ∀ r ∈ demoRankFn (tr.get_user_interactions u) n, r.user = u := by
  intro r hr
  cases hut : tr.get_user_interactions u with
  | nil => rw [hut] at hr; simp [demoRankFn] at hr
  | cons i rest =>
    rw [hut] at hr
    have hi : i ∈ tr.get_user_interactions u := by
      rw [hut]; exact List.mem_cons_self i rest
    have hiu : i.user = u := by
      have := (List.mem_filter.mp hi).2
      simpa using this
    have hr' : r ∈ [Interaction.mk i.user "a" 5, Interaction.mk i.user "b" 3] :=
      List.mem_of_mem_take (by simpa [demoRankFn] using hr)
    simp only [List.mem_cons, List.not_mem_nil, or_false] at hr'
    rcases hr' with h | h <;> subst h <;> exact hiu

/-- **C6 counterexample.** `demoSpec` satisfies the declared per-call rank
contract, yet calling `rank` with `user_id_list = [1, "1"]` (two distinct
Python values with the same string form, kept distinct by `set` and merged
only by the later `str` conversion) evaluates user `"1"` twice, and the
user's sub-sequence `[5, 3, 5, 3]` of the returned `Rank` is not
non-increasing. -/
theorem rank_ordering_colliding_ids :
    (∀ mo ut n f, ((demoRS.alg.rankFn mo ut n f).map Interaction.score).Sorted (· ≥ ·)) ∧
    (∀ mo ut k f, (demoRS.alg.rankFn mo ut (some k) f).length ≤ k) ∧
    (∀ mo u n f,
      ∀ r ∈ demoRS.alg.rankFn mo (demoRS.train_set.get_user_interactions u) n f,
        r.user = u) ∧
    demoRS.rank demoTest none (some [PyVal.pint 1, PyVal.pstr "1"]) none =
      Except.ok [⟨"1", "a", 5⟩, ⟨"1", "b", 3⟩, ⟨"1", "a", 5⟩, ⟨"1", "b", 3⟩] ∧
    ¬ ((([⟨"1", "a", 5⟩, ⟨"1", "b", 3⟩, ⟨"1", "a", 5⟩, ⟨"1", "b", 3⟩] :
          List Interaction).filter (fun r => r.user == "1")).map
        Interaction.score).Sorted (· ≥ ·) := by
  refine ⟨fun mo ut n f => demoRankFn_sorted ut n,
    fun mo ut k f => demoRankFn_length ut k,
    fun mo u n f => demoRankFn_user demoRS.train_set u n,
    rfl, ?_⟩
  decide

/-- The two post-condition warnings of `GraphBasedRS.rank`. -/
inductive Warning where
  | noItemsRanked
  | usersDropped (dropped : List String)
deriving DecidableEq, Repr

/-- Abstraction of a `GraphBasedAlgorithm`: one batched `predict`/`rank`
call over (user batch, graph, [top-n cutoff], batched filter mapping). -/
structure GBAlgSpec (γ : Type) where
  predictFn : List String → γ → Option (List (String × List String)) → List Interaction
  rankFn : List String → γ → Option Nat → Option (List (String × List String)) →
    List Interaction

/-- The `GraphBasedRS` class state: algorithm, graph, and the graph's
`to_ratings` method (used to build the synthetic train store for the
batched methodology filter). -/
structure GraphBasedRS (γ : Type) where
  alg : GBAlgSpec γ
  graph : γ
  to_ratings : γ → Ratings

/-- The evaluated-user set of the graph-based operations (no `str`
conversion happens on this path). -/
def gbAllUsers (test : Ratings) : Option (List String) → List String
  | none => test.user_id_column.dedup
  | some l => l.dedup

/-- The warning block at the end of `GraphBasedRS.rank`:
`if len(total_rank) == 0` warn about methodology/connectivity, `elif` the
number of distinct covered users differs from the number of requested
users warn naming `all_users - set(total_rank.user_id_column)`. -/
def gbRankWarnings (all_users : List String) (total_rank : List Interaction) :
    List Warning :=
  if total_rank.length = 0 then [Warning.noItemsRanked]
  else if ((total_rank.map Interaction.user).dedup).length ≠ all_users.length then
    [Warning.usersDropped (all_users.filter
      (fun u => decide (u ∉ total_rank.map Interaction.user)))]
  else []

/-- `GraphBasedRS.predict`: resolve users, compute the batched filter,
delegate one call to the algorithm, wrap the result.  The source emits no
warning on this path. -/
def GraphBasedRS.predict {γ : Type} (rs : GraphBasedRS γ) (test : Ratings)
    (user_id_list : Option (List String)) (methodology : Option Methodology) :
    List Interaction × List Warning :=
  let all_users := gbAllUsers test user_id_list
  let filter_dict := methodology.map (fun m => m.filter_all (rs.to_ratings rs.graph) test)
  (rs.alg.predictFn all_users rs.graph filter_dict, [])

/-- `GraphBasedRS.rank`: as `predict`, followed by the warning block. -/
def GraphBasedRS.rank {γ : Type} (rs : GraphBasedRS γ) (test : Ratings)
    (n_recs : Option Nat) (user_id_list : Option (List String))
    (methodology : Option Methodology) : List Interaction × List Warning :=
  let all_users := gbAllUsers test user_id_list
  let filter_dict := methodology.map (fun m => m.filter_all (rs.to_ratings rs.graph) test)
  let total_rank := rs.alg.rankFn all_users rs.graph n_recs filter_dict
  (total_rank, gbRankWarnings all_users total_rank)

theorem gbAllUsers_nodup (test : Ratings) (uidl : Option (List String)) :
    (gbAllUsers test uidl).Nodup := by
  cases uidl with
  | none => exact List.nodup_dedup _
  | some l => exact List.nodup_dedup _

theorem gbRankWarnings_dropped (all_users : List String) (res : List Interaction)
    (hnd : all_users.Nodup) (hne : res ≠ [])
    (hsub : ∀ u ∈ res.map Interaction.user, u ∈ all_users)
    (hmiss : ∃ u ∈ all_users, u ∉ res.map Interaction.user) :
    gbRankWarnings all_users res =
      [Warning.usersDropped (all_users.filter
        (fun u => decide (u ∉ res.map Interaction.user)))] := by
  have hlen0 : res.length ≠ 0 := by simpa [List.length_eq_zero] using hne
  have hlt : ((res.map Interaction.user).dedup).length < all_users.length := by
    obtain ⟨u0, hu0, hu0n⟩ := hmiss
    have h1 : ((res.map Interaction.user).dedup).length =
        (res.map Interaction.user).toFinset.card := (List.card_toFinset _).symm
    have h2 : all_users.length = all_users.toFinset.card :=
      (List.toFinset_card_of_nodup hnd).symm
    rw [h1, h2]
    apply Finset.card_lt_card
    rw [Finset.ssubset_iff_of_subset]
    · exact ⟨u0, List.mem_toFinset.mpr hu0, fun hc => hu0n (List.mem_toFinset.mp hc)⟩
    · intro x hx
      exact List.mem_toFinset.mpr (hsub x (List.mem_toFinset.mp hx))
  simp [gbRankWarnings, hlen0, Nat.ne_of_lt hlt]

/-- **C5 (amended; counterexample `graphBased_predict_no_warning`).**
`GraphBasedRS.rank` emits the zero-coverage warning when its batched call
yields no records, and the `usersDropped` warning naming the dropped users
when the covered users are a strict subset of the requested ones; in both
cases (and always) it returns normally with a well-formed container.
`GraphBasedRS.predict` also returns normally with a well-formed (possibly
empty) container, but — contrary to the claim — it emits **no** warning in
either situation. -/
theorem graphBasedRS_rank_warnings {γ : Type} (rs : GraphBasedRS γ) (test : Ratings)
    (n_recs : Option Nat) (user_id_list : Option (List String))
    (methodology : Option Methodology) :
    ((rs.rank test n_recs user_id_list methodology).1 = [] →
      (rs.rank test n_recs user_id_list methodology).2 = [Warning.noItemsRanked]) ∧
    ((rs.rank test n_recs user_id_list methodology).1 ≠ [] →
      (∀ u ∈ (rs.rank test n_recs user_id_list methodology).1.map Interaction.user,
        u ∈ gbAllUsers test user_id_list) →
      (∃ u ∈ gbAllUsers test user_id_list,
        u ∉ (rs.rank test n_recs user_id_list methodology).1.map Interaction.user) →
      (rs.rank test n_recs user_id_list methodology).2 =
        [Warning.usersDropped ((gbAllUsers test user_id_list).filter
          (fun u => decide (u ∉
            (rs.rank test n_recs user_id_list methodology).1.map Interaction.user)))]) ∧
    (rs.predict test user_id_list methodology).2 = [] := by
  refine ⟨?_, ?_, rfl⟩
  · intro h
    show gbRankWarnings _ _ = _
    simp only [GraphBasedRS.rank] at h
    simp [gbRankWarnings, List.length_eq_zero.mpr h]
  · intro hne hsub hmiss
    exact gbRankWarnings_dropped _ _ (gbAllUsers_nodup test user_id_list) hne hsub hmiss

/-- A concrete graph-based system whose batched `rank` covers only user
`"a"` and whose batched `predict` covers no user at all. -/
def gbDemo : GraphBasedRS Unit :=
  ⟨⟨fun _ _ _ => [], fun _ _ _ _ => [⟨"a", "i", 1⟩]⟩, (), fun _ => Ratings.mk []⟩

/-- A test set requesting users `"a"` and `"b"`. -/
def gbTest : Ratings := Ratings.mk [⟨"a", "x", 1⟩, ⟨"b", "y", 1⟩]

/-- Witness for C5: `rank` covers `{"a"}`, a strict subset of the
requested `{"a", "b"}`, and emits the `usersDropped ["b"]` warning. -/
theorem graphBasedRS_rank_warnings_witness :
    (gbDemo.rank gbTest none none none).2 = [Warning.usersDropped ["b"]] := by
  have h := (graphBasedRS_rank_warnings gbDemo gbTest none none none).2.1
    (by decide) (by decide) (by decide)
  simpa using h

/-- **C5 counterexample.** `GraphBasedRS.predict` whose batched call
yields records covering zero users returns with an **empty** warning list:
the claim that both `predict` and `rank` warn on zero coverage is false
for `predict`. -/
theorem graphBased_predict_no_warning :
    ¬ ((gbDemo.predict gbTest none none).1 = [] →
        (gbDemo.predict gbTest none none).2 ≠ []) := by
  intro h
  exact h rfl rfl

/-- The `Split` container of the orange_cb_recsys evaluation pipeline:
a prediction frame and a ground-truth frame (each a `from_id`-keyed list
of records). -/
structure Split where
  pred : List Interaction
  truth : List Interaction
deriving DecidableEq, Repr

/-- The per-split body of `MetricEvaluator.eval_metrics`
(orange_cb_recsys): when both frames are non-empty, assign
`split.truth = split.truth.query('from_id in @from_id_valid')` in place,
keeping only truth records whose user appears among the prediction's
users; otherwise leave the split untouched. -/
def truthFilterStep (s : Split) : Split :=
  if s.pred ≠ [] ∧ s.truth ≠ [] then
    { s with
      truth := s.truth.filter (fun r => decide (r.user ∈ s.pred.map Interaction.user)) }
  else s

/-- The cumulative effect of `MetricEvaluator.eval_metrics` on its split
list: the outer loop runs once per metric (metrics are abstracted by their
count — `metric.perform` only reads the split), the inner loop applies
`truthFilterStep` to every split; the final list is the state the caller
observes after the method returns. -/
def eval_metrics_split_state : Nat → List Split → List Split
  | 0, splits => splits
  | k + 1, splits => eval_metrics_split_state k (splits.map truthFilterStep)

theorem truthFilterStep_idem (s : Split) :
    truthFilterStep (truthFilterStep s) = truthFilterStep s := by
  by_cases h : s.pred ≠ [] ∧ s.truth ≠ []
  · have hstep : truthFilterStep s =
        { s with truth := s.truth.filter (fun r => decide (r.user ∈ s.pred.map Interaction.user)) } := by
      simp [truthFilterStep, h]
    rw [hstep]
    by_cases h2 : s.truth.filter
        (fun r => decide (r.user ∈ s.pred.map Interaction.user)) = []
    · simp [truthFilterStep, h2]
    · simp [truthFilterStep, h.1, h2, List.filter_filter]
  · simp [truthFilterStep, h]

theorem eval_metrics_split_state_fixed :
    ∀ (n : Nat) (l : List Split),
      eval_metrics_split_state n (l.map truthFilterStep) = l.map truthFilterStep
  | 0, _ => rfl
  | n + 1, l => by
    rw [eval_metrics_split_state]
    have hmap : (l.map truthFilterStep).map truthFilterStep = l.map truthFilterStep := by
      rw [List.map_map]
      exact List.map_congr_left (fun s _ => truthFilterStep_idem s)
    rw [hmap]
    exact eval_metrics_split_state_fixed n l

/-- **C10.** The orange_cb_recsys `MetricEvaluator.eval_metrics` mutates
its input: once at least one metric is evaluated, every split whose
prediction and truth frames are both non-empty has its truth replaced —
visibly for the caller — by exactly the truth records whose user
identifier appears among the prediction's user identifiers (and splits
with an empty frame are untouched). -/
theorem eval_metrics_mutates_truth (k : Nat) (splits : List Split) :
    eval_metrics_split_state (k + 1) splits = splits.map truthFilterStep ∧
    (∀ s : Split, s.pred ≠ [] → s.truth ≠ [] →
      truthFilterStep s =
        { s with truth := s.truth.filter (fun r => decide (r.user ∈ s.pred.map Interaction.user)) }) := by
  constructor
  · rw [eval_metrics_split_state]
    exact eval_metrics_split_state_fixed k splits
  · intro s hp ht
    simp [truthFilterStep, hp, ht]

/-- A concrete split: predictions for user `"a"`, truth for `"a"`, `"b"`. -/
def demoSplit : Split :=
  ⟨[⟨"a", "i", 2⟩], [⟨"a", "x", 1⟩, ⟨"b", "y", 1⟩]⟩

/-- Witness for C10: after one metric pass over `[demoSplit]`, the truth
of the split retains only user `"a"`'s record, and the per-split equation
holds at `demoSplit`. -/
theorem eval_metrics_mutates_truth_witness :
    demoSplit.pred ≠ [] ∧ demoSplit.truth ≠ [] ∧
    truthFilterStep demoSplit =
      { demoSplit with truth := demoSplit.truth.filter (fun r => decide (r.user ∈ demoSplit.pred.map Interaction.user)) } :=
  ⟨by decide, by decide,
    (eval_metrics_mutates_truth 0 [demoSplit]).2 demoSplit (by decide) (by decide)⟩

/-- Witness for C3: `demoRS` has a non-empty Fit Registry, and `rank` and
`predict` both return a container instead of raising `NotFittedAlg`. -/
theorem contentBasedRS_notFittedAlg_iff_witness :
    (demoRS.user_fit_dic ≠ []) ∧
    (demoRS.rank demoTest none none none).isOk = true ∧
    (demoRS.predict demoTest none none).isOk = true :=
  ⟨by decide,
    ((contentBasedRS_notFittedAlg_iff demoRS demoTest none none none).2.2 (by decide)).1,
    ((contentBasedRS_notFittedAlg_iff demoRS demoTest none none none).2.2 (by decide)).2⟩
